import Mathlib

/-!
Shallow embedding of the synchronization layer (src/threads/synch.c) and the
timed sleep/wake queue (the timer device file) of the instructional kernel.
Machine integers: the tick counter and priorities are modelled as Int, the
semaphore count as Nat; overflow is immaterial at the magnitudes involved.
Stateful C code is modelled as explicit state-passing functions; each
definition is a direct transcription of the corresponding C function.
-/

namespace Synch

/-- A thread as seen by synch.c: the base priority field, the eff_priority
field written by donation, and an arrival stamp used to express FIFO order
of queue insertions (insertion order, not a field of the C struct). -/
structure ThreadSt where
  priority : Int
  eff_priority : Int
  arrival : Nat
deriving DecidableEq

/-- The effective priority as computed inline throughout synch.c:
the larger of the eff_priority field and the base priority field,
written in the source as a conditional expression. -/
def effPriority (t : ThreadSt) : Int :=
  if t.eff_priority > t.priority then t.eff_priority else t.priority

/-- Modelled from the spec: list_insert_ordered of the kernel list library
(lib/kernel/list.c is not under src). It inserts the new element before the
first element for which the comparator holds, hence after every tie when the
comparator is strict, which gives FIFO order among equals. -/
def list_insert_ordered {α : Type} (less : α → α → Bool) (x : α) : List α → List α
  | [] => [x]
  | y :: ys => if less x y then x :: y :: ys else y :: list_insert_ordered less x ys

/-- Source priority_ordering_wait: true iff the effective priority of a is
strictly greater than that of b. -/
def priority_ordering_wait (a b : ThreadSt) : Bool :=
  effPriority a > effPriority b

/-- Semaphore state: the unsigned value and the waiter queue of blocked
threads, front first. -/
structure SemSt where
  value : Nat
  waiters : List ThreadSt
deriving DecidableEq

/-- Result of sema_up: the new semaphore state, the thread popped and
unblocked (if any), and whether the body reaches the thread_yield call. -/
structure SemaUpResult where
  sem : SemSt
  woken : Option ThreadSt
  callsThreadYield : Bool
deriving DecidableEq

/-- Source sema_up: with interrupts disabled, if the waiter queue is
non-empty it pops the front element and unblocks it; then increments value;
finally, whenever a waiter was woken (unwait non-null), it calls
thread_yield unconditionally. -/
def sema_up (s : SemSt) : SemaUpResult :=
  match s.waiters with
  | [] => ⟨⟨s.value + 1, []⟩, none, false⟩
  | w :: rest => ⟨⟨s.value + 1, rest⟩, some w, true⟩

/-- The enqueue step of sema_down taken while value = 0: ordered insert of
the current thread into the waiter queue by priority_ordering_wait. -/
def sema_down_enqueue (t : ThreadSt) (s : SemSt) : SemSt :=
  ⟨s.value, list_insert_ordered priority_ordering_wait t s.waiters⟩

/-- Lock state: optional holder (a thread index), the underlying semaphore
value, and its waiter queue as a list of thread indices. -/
structure LockSt where
  holder : Option Nat
  value : Nat
  waiters : List Nat
deriving DecidableEq

/-- System state for the donation claims: threads indexed by position and
locks indexed by position. -/
structure SysSt where
  threads : List ThreadSt
  locks : List LockSt
deriving DecidableEq

/-- Default thread used for out-of-range lookups in the model. -/
def thDefault : ThreadSt := ⟨0, 0, 0⟩

/-- Default lock used for out-of-range lookups in the model. -/
def lkDefault : LockSt := ⟨none, 1, []⟩

/-- Source lock_acquire, the donation step before sema_down (synch.c lines
251-254): if the lock has a holder, the holder eff_priority field is
overwritten with the caller current effective priority. There is no donor
registration, no comparison with the previous value, and no propagation to
threads the holder is itself blocked on. -/
def lock_acquire_donate (s : SysSt) (cur lockIdx : Nat) : SysSt :=
  match (s.locks.getD lockIdx lkDefault).holder with
  | none => s
  | some h =>
      let donation := effPriority (s.threads.getD cur thDefault)
      let th := s.threads.getD h thDefault
      ⟨s.threads.set h ⟨th.priority, donation, th.arrival⟩, s.locks⟩

/-- Source lock_release: with the holder still set, writes 0 into the
holder eff_priority field, clears the holder, then performs sema_up on the
lock semaphore (pop one waiter if any, increment value). The precondition
that the current thread holds the lock is an ASSERT in the source; the
holder-none branch is unreachable under it. -/
def lock_release (s : SysSt) (lockIdx : Nat) : SysSt :=
  let lk := s.locks.getD lockIdx lkDefault
  match lk.holder with
  | none => s
  | some h =>
      let th := s.threads.getD h thDefault
      let threads := s.threads.set h ⟨th.priority, 0, th.arrival⟩
      let lk2 : LockSt :=
        match lk.waiters with
        | [] => ⟨none, lk.value + 1, []⟩
        | _ :: rest => ⟨none, lk.value + 1, rest⟩
      ⟨threads, s.locks.set lockIdx lk2⟩

end Synch

namespace Synch

/-- Failing state for C1: thread 0 has base priority 1 and a donated
eff_priority of 10 from thread 1, which has base priority 10 and is blocked
on lock 1; thread 0 holds lock 0 (no waiters) and lock 1 (waiter: thread 1). -/
def c1State : SysSt :=
  ⟨[⟨1, 10, 0⟩, ⟨10, 0, 0⟩],
   [⟨some 0, 0, []⟩, ⟨some 0, 0, [1]⟩]⟩

/-- C1: lock_release resets the releasing thread eff_priority field to 0
unconditionally instead of recomputing the maximum of the base priority and
the effective priorities of donors on other locks still held. At the failing
state, thread 0 releases lock 0 while still holding lock 1 with donor
thread 1 of effective priority 10; the claim requires an effective priority
of max 1 10 = 10, but the code leaves effective priority 1. -/
theorem c1_release_ignores_other_donors :
    effPriority ((lock_release c1State 0).threads.getD 0 thDefault) = 1 ∧
    ((lock_release c1State 0).locks.getD 1 lkDefault).holder = some 0 ∧
    ((lock_release c1State 0).locks.getD 1 lkDefault).waiters = [1] ∧
    effPriority ((lock_release c1State 0).threads.getD 1 thDefault) = 10 ∧
    max (1 : Int) 10 = 10 := by
  decide

/-- Failing state for C2: thread 0 (T_low, base 1, eff 5 donated earlier by
thread 1) holds lock 0 on which thread 1 waits; thread 1 (T_mid, base 5)
holds lock 1; thread 2 (T_high, base 10) is about to acquire lock 1. -/
def c2State : SysSt :=
  ⟨[⟨1, 5, 0⟩, ⟨5, 0, 0⟩, ⟨10, 0, 0⟩],
   [⟨some 0, 0, [1]⟩, ⟨some 1, 0, []⟩]⟩

/-- C2: the donation step of lock_acquire is single-level only. When thread
2 (effective 10) acquires lock 1 held by thread 1, which is itself blocked
on lock 0 held by thread 0, the code raises thread 1 to 10 but leaves
thread 0 at effective priority 5 < 10, so the donation does not propagate
along the wait-for chain as the claim requires. -/
theorem c2_no_nested_propagation :
    effPriority ((lock_acquire_donate c2State 2 1).threads.getD 1 thDefault) = 10 ∧
    effPriority ((lock_acquire_donate c2State 2 1).threads.getD 0 thDefault) = 5 ∧
    effPriority ((lock_acquire_donate c2State 2 1).threads.getD 2 thDefault) = 10 ∧
    ((lock_acquire_donate c2State 2 1).locks.getD 1 lkDefault).holder = some 1 ∧
    ((lock_acquire_donate c2State 2 1).locks.getD 0 lkDefault).waiters = [1] ∧
    ((lock_acquire_donate c2State 2 1).locks.getD 0 lkDefault).holder = some 0 ∧
    ¬ (5 : Int) ≥ 10 := by
  decide

/-- Failing state for C4: thread 0 (the holder, base 1, eff_priority 10
from an earlier donor) holds lock 0; thread 1 (the caller, base 5) is about
to acquire lock 0. -/
def c4State : SysSt :=
  ⟨[⟨1, 10, 0⟩, ⟨5, 0, 0⟩],
   [⟨some 0, 0, []⟩]⟩

/-- C4: the donation step overwrites the holder eff_priority field with the
caller effective priority, so it can lower the holder. At the failing state
the holder had effective priority 10; after thread 1 (effective 5) performs
the donation step, the holder has effective priority 5, not
max 10 5 = 10 as the claim requires. -/
theorem c4_donation_can_lower :
    effPriority (c4State.threads.getD 0 thDefault) = 10 ∧
    effPriority (c4State.threads.getD 1 thDefault) = 5 ∧
    effPriority ((lock_acquire_donate c4State 1 0).threads.getD 0 thDefault) = 5 ∧
    max (10 : Int) 5 = 10 ∧ ¬ (5 : Int) ≥ 10 := by
  decide

/-- Failing state for C3: thread 0 (base 0, eff_priority 10 donated by
thread 4, which waits on lock 0) holds lock 0 and is blocked on lock 1,
where it was inserted while its effective priority was 10, ahead of thread
2 (base 8); thread 3 (base 3) holds lock 1; thread 1 (base 1) is about to
run the donation step of lock_acquire on lock 0. -/
def c3State : SysSt :=
  ⟨[⟨0, 10, 0⟩, ⟨1, 0, 0⟩, ⟨8, 0, 0⟩, ⟨3, 0, 0⟩, ⟨10, 0, 0⟩],
   [⟨some 0, 0, [4]⟩, ⟨some 3, 0, [0, 2]⟩]⟩

/-- C3: the semaphore waiter queue is ordered only at insertion time,
while the donation step of lock_acquire mutates the eff_priority field of
a thread that may already sit in the waiter queue of another semaphore, and
nothing re-sorts that queue; sema_up then pops the stale front. In the
failing trace, the donation step run by thread 1 lowers queued thread 0 to
effective priority 1; when thread 3 then releases lock 1, its sema_up
unblocks front waiter thread 0 (effective 1) although the still-blocked
thread 2 has effective priority 8 at that wake moment, so the woken thread
is not one of highest effective priority; the count is still incremented
by one. -/
theorem c3_stale_queue_wakes_nonmaximal :
    effPriority ((lock_acquire_donate c3State 1 0).threads.getD 0 thDefault) = 1 ∧
    effPriority ((lock_acquire_donate c3State 1 0).threads.getD 2 thDefault) = 8 ∧
    ((lock_acquire_donate c3State 1 0).locks.getD 1 lkDefault).waiters = [0, 2] ∧
    ((lock_release (lock_acquire_donate c3State 1 0) 1).locks.getD 1 lkDefault).waiters = [2] ∧
    ((lock_release (lock_acquire_donate c3State 1 0) 1).locks.getD 1 lkDefault).value = 0 + 1 ∧
    effPriority ((lock_release (lock_acquire_donate c3State 1 0) 1).threads.getD 0 thDefault) = 1 ∧
    effPriority ((lock_release (lock_acquire_donate c3State 1 0) 1).threads.getD 2 thDefault) = 8 ∧
    ¬ (1 : Int) ≥ 8 := by
  decide

/-- C5: sema_up calls thread_yield whenever it has woken a waiter, with no
interrupt-context guard; per the spec, unblocking is the only scheduler
call permitted in interrupt context, so a sema_up in interrupt context on a
semaphore with a blocked waiter reaches a forbidden yielding call. The
failing state has value 0 and one waiter of base priority 5. -/
theorem c5_sema_up_yields_with_waiter :
    sema_up ⟨0, [⟨5, 0, 0⟩]⟩ =
      ⟨⟨1, []⟩, some ⟨5, 0, 0⟩, true⟩ ∧
    (sema_up ⟨0, [⟨5, 0, 0⟩]⟩).callsThreadYield = true := by
  decide

end Synch

namespace Timer

/-- A sleeping thread as queued by timer_sleep: the thread identity and the
absolute wakeup_time written into the thread struct. -/
structure SleepEntry where
  tid : Nat
  wakeup_time : Int
deriving DecidableEq

/-- Source compare: ascending order of wakeup_time, strict, so that ordered
insertion is FIFO among equal deadlines. -/
def compare (a b : SleepEntry) : Bool :=
  a.wakeup_time < b.wakeup_time

/-- Timer state for the interrupt handler: the tick counter and the global
sleep queue, front first. -/
structure TimerSt where
  ticks : Int
  sleeping : List SleepEntry
deriving DecidableEq

/-- The wake loop of timer_interrupt: while the queue is non-empty and the
head wakeup_time is at most the tick count, pop the head and unblock it.
Returns the popped entries in pop order and the remaining queue. -/
def wake_loop (now : Int) : List SleepEntry → List SleepEntry × List SleepEntry
  | [] => ([], [])
  | e :: rest =>
      if e.wakeup_time ≤ now then
        let p := wake_loop now rest
        (e :: p.1, p.2)
      else ([], e :: rest)

/-- Source timer_interrupt: increments ticks, calls the external
thread_tick hook (no state in this model), then runs the wake loop against
the new tick count. Returns the new state and the unblocked entries in the
order they were popped. -/
def timer_interrupt (s : TimerSt) : TimerSt × List SleepEntry :=
  let now := s.ticks + 1
  let p := wake_loop now s.sleeping
  (⟨now, p.2⟩, p.1)

/-- The sleep-queue discipline maintained by ordered insertion with
compare: wakeup times ascending from front to back. -/
def SleepSorted (l : List SleepEntry) : Prop :=
  l.Pairwise (fun a b => a.wakeup_time ≤ b.wakeup_time)

instance : DecidablePred SleepSorted := fun l =>
  List.instDecidablePairwise l

/-- Timer state as seen by timer_sleep: the interrupt level of the caller,
the tick counter, and the sleep queue. -/
structure TimerSleepSt where
  intr_on : Bool
  ticks : Int
  sleeping : List SleepEntry
deriving DecidableEq

/-- Result of timer_sleep: the final state and whether the caller was
suspended via thread_block. -/
structure SleepResult where
  st : TimerSleepSt
  suspended : Bool
deriving DecidableEq

/-- Source timer_sleep: returns immediately when ticks ≤ 0. Otherwise it
reads the current tick count, sets wakeup_time = start + ticks on the
caller, inserts the caller into the sleep queue ordered by compare, and
blocks with interrupts disabled, restoring the saved level afterwards. The
body contains no check of the interrupt level: it only saves and restores
it, so the final level equals the initial one on every path. -/
def timer_sleep (d : Int) (cur : Nat) (s : TimerSleepSt) : SleepResult :=
  if d ≤ 0 then ⟨s, false⟩
  else
    let start := s.ticks
    ⟨⟨s.intr_on, s.ticks,
      Synch.list_insert_ordered compare ⟨cur, start + d⟩ s.sleeping⟩, true⟩

/-- On a queue sorted ascending by wakeup_time, the wake loop pops exactly
the entries with wakeup_time at most the tick count, in queue order, and
leaves exactly the later-deadline entries. -/
theorem wake_loop_eq_filter (now : Int) (l : List SleepEntry)
    (hs : SleepSorted l) :
    wake_loop now l =
      (l.filter (fun e => e.wakeup_time ≤ now),
       l.filter (fun e => now < e.wakeup_time)) := by
  induction l with
  | nil => simp [wake_loop]
  | cons e rest ih =>
      unfold SleepSorted at hs
      rw [List.pairwise_cons] at hs
      by_cases he : e.wakeup_time ≤ now
      · simp only [wake_loop, if_pos he, ih hs.2]
        simp [List.filter_cons, he, not_lt.mpr he]
      · have hall : ∀ x ∈ rest, now < x.wakeup_time := by
          intro x hx
          exact lt_of_lt_of_le (not_le.mp he) (hs.1 x hx)
        have h1 : List.filter (fun x => decide (x.wakeup_time ≤ now)) rest = [] := by
          apply List.filter_eq_nil_iff.mpr
          intro x hx
          simpa using not_le.mpr (hall x hx)
        have h2 : List.filter (fun x => decide (now < x.wakeup_time)) rest = rest := by
          apply List.filter_eq_self.mpr
          intro x hx
          simpa using hall x hx
        simp only [wake_loop, if_neg he]
        simp [List.filter_cons, he, not_le.mp he, h1, h2]

/-- C7: each timer_interrupt invocation increments the tick counter by
exactly one and, on a deadline-sorted queue, unblocks precisely the entries
whose wakeup deadline is at most the new tick count, popping them from the
front in queue (hence ascending-deadline) order, and leaves exactly the
later-deadline entries in the queue. -/
theorem c7_timer_interrupt_wakes_due (s : TimerSt) (hs : SleepSorted s.sleeping) :
    (timer_interrupt s).1.ticks = s.ticks + 1 ∧
    (timer_interrupt s).2 =
      s.sleeping.filter (fun e => e.wakeup_time ≤ s.ticks + 1) ∧
    (timer_interrupt s).1.sleeping =
      s.sleeping.filter (fun e => s.ticks + 1 < e.wakeup_time) ∧
    SleepSorted (timer_interrupt s).2 := by
  have h := wake_loop_eq_filter (s.ticks + 1) s.sleeping hs
  refine ⟨rfl, ?_, ?_, ?_⟩
  · show (wake_loop (s.ticks + 1) s.sleeping).1 = _
    rw [h]
  · show (wake_loop (s.ticks + 1) s.sleeping).2 = _
    rw [h]
  · show SleepSorted (wake_loop (s.ticks + 1) s.sleeping).1
    rw [h]
    exact List.Pairwise.filter _ hs

/-- Witness for C7: ticks 0, queue with deadlines 1, 1, 3 (sorted); the
interrupt advances to tick 1, wakes the two deadline-1 entries in order,
and leaves the deadline-3 entry. -/
theorem c7_witness :
    SleepSorted [⟨5, 1⟩, ⟨6, 1⟩, ⟨7, 3⟩] ∧
    ((timer_interrupt ⟨0, [⟨5, 1⟩, ⟨6, 1⟩, ⟨7, 3⟩]⟩).1.ticks = (0 : Int) + 1 ∧
     (timer_interrupt ⟨0, [⟨5, 1⟩, ⟨6, 1⟩, ⟨7, 3⟩]⟩).2 =
       [⟨5, 1⟩, ⟨6, 1⟩, ⟨7, 3⟩].filter (fun e => e.wakeup_time ≤ (0 : Int) + 1) ∧
     (timer_interrupt ⟨0, [⟨5, 1⟩, ⟨6, 1⟩, ⟨7, 3⟩]⟩).1.sleeping =
       [⟨5, 1⟩, ⟨6, 1⟩, ⟨7, 3⟩].filter (fun e => (0 : Int) + 1 < e.wakeup_time) ∧
     SleepSorted (timer_interrupt ⟨0, [⟨5, 1⟩, ⟨6, 1⟩, ⟨7, 3⟩]⟩).2) :=
  ⟨by decide, c7_timer_interrupt_wakes_due ⟨0, [⟨5, 1⟩, ⟨6, 1⟩, ⟨7, 3⟩]⟩ (by decide)⟩

/-- C10: for every duration at most 0, timer_sleep returns immediately: the
caller is not suspended and the state, in particular the sleep queue and
the tick counter, is unchanged. -/
theorem c10_nonpositive_sleep_noop (d : Int) (cur : Nat) (s : TimerSleepSt)
    (h : d ≤ 0) :
    timer_sleep d cur s = ⟨s, false⟩ := by
  unfold timer_sleep
  rw [if_pos h]

/-- Witness for C10 at duration -1. -/
theorem c10_witness :
    (-1 : Int) ≤ 0 ∧
    timer_sleep (-1) 0 ⟨true, 5, [⟨2, 9⟩]⟩ = ⟨⟨true, 5, [⟨2, 9⟩]⟩, false⟩ :=
  ⟨by decide, c10_nonpositive_sleep_noop (-1) 0 ⟨true, 5, [⟨2, 9⟩]⟩ (by decide)⟩

/-- C9 counterexample: timer_sleep contains no interrupt-level check. With
interrupts disabled (intr_on false) and duration 1, the call does not fail
fast: it proceeds, enqueues the caller with wakeup_time 0 + 1 = 1, and
suspends it. -/
theorem c9_counterexample_no_check :
    timer_sleep 1 7 ⟨false, 0, []⟩ = ⟨⟨false, 0, [⟨7, 1⟩]⟩, true⟩ := by
  decide

/-- C9 amended: for every positive duration, timer_sleep proceeds whatever
the interrupt level: it suspends the caller, inserts it into the sleep
queue ordered by deadline with wakeup_time = ticks + duration, and leaves
the saved interrupt level as it found it. -/
theorem c9_sleep_proceeds_unchecked (d : Int) (cur : Nat) (s : TimerSleepSt)
    (h : 0 < d) :
    (timer_sleep d cur s).suspended = true ∧
    (timer_sleep d cur s).st.sleeping =
      Synch.list_insert_ordered compare ⟨cur, s.ticks + d⟩ s.sleeping ∧
    (timer_sleep d cur s).st.intr_on = s.intr_on ∧
    (timer_sleep d cur s).st.ticks = s.ticks := by
  unfold timer_sleep
  rw [if_neg (not_le.mpr h)]
  exact ⟨rfl, rfl, rfl, rfl⟩

/-- Membership through ordered insertion: the inserted list holds exactly
the new element and the old ones. -/
theorem mem_list_insert_ordered {α : Type} (less : α → α → Bool) (x z : α)
    (l : List α) : z ∈ Synch.list_insert_ordered less x l ↔ z = x ∨ z ∈ l := by
  induction l with
  | nil => simp [Synch.list_insert_ordered]
  | cons y ys ih =>
      by_cases h : less x y
      · rw [Synch.list_insert_ordered, if_pos h]
        simp only [List.mem_cons]
      · rw [Synch.list_insert_ordered, if_neg h]
        simp only [List.mem_cons, ih]
        tauto

/-- Ordered insertion preserves a pairwise discipline R when R is
transitive, the comparator implies R in favour of the new element, and its
failure implies R in favour of the old element. -/
theorem pairwise_list_insert_ordered {α : Type} {less : α → α → Bool}
    {R : α → α → Prop}
    (htrans : ∀ a b c, R a b → R b c → R a c)
    (x : α) (l : List α)
    (h1 : ∀ y ∈ l, less x y = true → R x y)
    (h2 : ∀ y ∈ l, less x y = false → R y x)
    (hl : l.Pairwise R) :
    (Synch.list_insert_ordered less x l).Pairwise R := by
  induction l with
  | nil => simp [Synch.list_insert_ordered]
  | cons y ys ih =>
      rw [List.pairwise_cons] at hl
      by_cases h : less x y
      · rw [Synch.list_insert_ordered, if_pos h]
        refine List.Pairwise.cons ?_ (List.Pairwise.cons hl.1 hl.2)
        intro z hz
        rcases List.mem_cons.mp hz with rfl | hz2
        · exact h1 _ (List.mem_cons_self _ _) h
        · exact htrans x y z (h1 y (List.mem_cons_self y ys) h) (hl.1 z hz2)
      · rw [Synch.list_insert_ordered, if_neg h]
        refine List.Pairwise.cons ?_
          (ih (fun z hz hlt => h1 z (List.mem_cons_of_mem y hz) hlt)
              (fun z hz hlt => h2 z (List.mem_cons_of_mem y hz) hlt) hl.2)
        intro z hz
        rcases (mem_list_insert_ordered less x z ys).mp hz with rfl | hz2
        · exact h2 y (List.mem_cons_self y ys) (by simpa using h)
        · exact hl.1 z hz2

/-- The sleep-queue discipline is preserved by the ordered insertion
performed in timer_sleep, for any new entry. -/
theorem sleepSorted_enqueue (x : SleepEntry) (l : List SleepEntry)
    (hl : SleepSorted l) :
    SleepSorted (Synch.list_insert_ordered compare x l) := by
  have hl2 : l.Pairwise (fun a b : SleepEntry => a.wakeup_time ≤ b.wakeup_time) := hl
  show (Synch.list_insert_ordered compare x l).Pairwise
    (fun a b : SleepEntry => a.wakeup_time ≤ b.wakeup_time)
  exact @pairwise_list_insert_ordered SleepEntry compare
    (fun a b : SleepEntry => a.wakeup_time ≤ b.wakeup_time)
    (fun a b c ha hb => le_trans ha hb) x l
    (fun y _ hlt => le_of_lt (by simpa [compare] using hlt))
    (fun y _ hle => not_lt.mp (by simpa [compare] using hle))
    hl2

/-- Witness for the amended C9: duration 2 with interrupts disabled. -/
theorem c9_amended_witness :
    (0 : Int) < 2 ∧
    ((timer_sleep 2 4 ⟨false, 10, []⟩).suspended = true ∧
     (timer_sleep 2 4 ⟨false, 10, []⟩).st.sleeping =
       Synch.list_insert_ordered compare ⟨4, (10 : Int) + 2⟩ [] ∧
     (timer_sleep 2 4 ⟨false, 10, []⟩).st.intr_on = false ∧
     (timer_sleep 2 4 ⟨false, 10, []⟩).st.ticks = 10) :=
  ⟨by decide, c9_sleep_proceeds_unchecked 2 4 ⟨false, 10, []⟩ (by decide)⟩

end Timer

namespace Synch

/-- The waiter-queue discipline produced by ordered insertion with
priority_ordering_wait: effective priority strictly descending, and among
equal effective priorities the arrival stamps ascending (FIFO). -/
def WaitOrder (a b : ThreadSt) : Prop :=
  effPriority a > effPriority b ∨
    (effPriority a = effPriority b ∧ a.arrival < b.arrival)

instance (a b : ThreadSt) : Decidable (WaitOrder a b) :=
  inferInstanceAs (Decidable (effPriority a > effPriority b ∨
    (effPriority a = effPriority b ∧ a.arrival < b.arrival)))

/-- A waiter queue in the discipline produced by sema_down insertions.
This holds at insertion times only: the donation write of lock_acquire can
mutate the eff_priority of an already queued thread and nothing re-sorts
the queue afterwards. -/
def WaitSorted (l : List ThreadSt) : Prop :=
  l.Pairwise WaitOrder

instance : DecidablePred WaitSorted := fun l =>
  List.instDecidablePairwise l

/-- WaitOrder is transitive. -/
theorem waitOrder_trans (a b c : ThreadSt)
    (hab : WaitOrder a b) (hbc : WaitOrder b c) : WaitOrder a c := by
  unfold WaitOrder at hab hbc ⊢
  omega

/-- The waiter-queue discipline is preserved by the ordered insertion of
sema_down, provided the new waiter arrives later than every queued one. -/
theorem waitSorted_enqueue (t : ThreadSt) (l : List ThreadSt)
    (hl : WaitSorted l) (hnew : ∀ x ∈ l, x.arrival < t.arrival) :
    WaitSorted (list_insert_ordered priority_ordering_wait t l) := by
  have hl2 : l.Pairwise WaitOrder := hl
  show (list_insert_ordered priority_ordering_wait t l).Pairwise WaitOrder
  refine @Timer.pairwise_list_insert_ordered ThreadSt priority_ordering_wait
    WaitOrder waitOrder_trans t l ?_ ?_ hl2
  · intro y _ hlt
    exact Or.inl (by simpa [priority_ordering_wait] using hlt)
  · intro y hy hle
    have h : ¬ effPriority t > effPriority y := by
      simpa [priority_ordering_wait] using hle
    rcases lt_or_eq_of_le (not_lt.mp h) with h2 | h2
    · exact Or.inl h2
    · exact Or.inr ⟨h2.symm, hnew y hy⟩

end Synch

namespace Cond

/-- An entry of a condition waiter queue: the semaphore_elem of cond_wait,
carrying the priority tag recorded at enqueue time, an arrival stamp for
insertion order, and the private semaphore count (initialized to 0). -/
structure CondWaiter where
  tag : Int
  arrival : Nat
  semValue : Nat
deriving DecidableEq

/-- Source priority_sort_cond_waiter: true iff the priority tag of a is
strictly greater than that of b. -/
def priority_sort_cond_waiter (a b : CondWaiter) : Bool :=
  a.tag > b.tag

/-- The enqueue step of cond_wait: a fresh private semaphore of count 0 is
tagged with the caller current effective priority and inserted into the
waiter queue ordered by priority_sort_cond_waiter. -/
def cond_wait_enqueue (t : Synch.ThreadSt) (arrival : Nat)
    (l : List CondWaiter) : List CondWaiter :=
  Synch.list_insert_ordered priority_sort_cond_waiter
    ⟨Synch.effPriority t, arrival, 0⟩ l

/-- Source cond_signal, the state change on the waiter queue: if non-empty,
pop the front entry and perform sema_up on its private semaphore (which
increments that count and wakes its single blocked waiter); if empty, do
nothing. Returns the remaining queue and the signalled entry with its
semaphore posted. -/
def cond_signal (l : List CondWaiter) : List CondWaiter × Option CondWaiter :=
  match l with
  | [] => ([], none)
  | w :: rest => (rest, some ⟨w.tag, w.arrival, w.semValue + 1⟩)

/-- The condition-queue discipline produced by ordered insertion with
priority_sort_cond_waiter: tags strictly descending, arrival ascending
among equal tags. -/
def CondOrder (a b : CondWaiter) : Prop :=
  a.tag > b.tag ∨ (a.tag = b.tag ∧ a.arrival < b.arrival)

instance (a b : CondWaiter) : Decidable (CondOrder a b) :=
  inferInstanceAs (Decidable (a.tag > b.tag ∨ (a.tag = b.tag ∧ a.arrival < b.arrival)))

/-- A condition waiter queue in the discipline maintained by cond_wait. -/
def CondSorted (l : List CondWaiter) : Prop :=
  l.Pairwise CondOrder

instance : DecidablePred CondSorted := fun l =>
  List.instDecidablePairwise l

/-- CondOrder is transitive. -/
theorem condOrder_trans (a b c : CondWaiter)
    (hab : CondOrder a b) (hbc : CondOrder b c) : CondOrder a c := by
  unfold CondOrder at hab hbc ⊢
  omega

/-- The condition-queue discipline is preserved by the insertion of
cond_wait, provided the new waiter arrives later than every queued one. -/
theorem condSorted_enqueue (w : CondWaiter) (l : List CondWaiter)
    (hl : CondSorted l) (hnew : ∀ x ∈ l, x.arrival < w.arrival) :
    CondSorted (Synch.list_insert_ordered priority_sort_cond_waiter w l) := by
  have hl2 : l.Pairwise CondOrder := hl
  show (Synch.list_insert_ordered priority_sort_cond_waiter w l).Pairwise CondOrder
  refine @Timer.pairwise_list_insert_ordered CondWaiter priority_sort_cond_waiter
    CondOrder condOrder_trans w l ?_ ?_ hl2
  · intro y _ hlt
    exact Or.inl (by simpa [priority_sort_cond_waiter] using hlt)
  · intro y hy hle
    have h : ¬ w.tag > y.tag := by
      simpa [priority_sort_cond_waiter] using hle
    rcases lt_or_eq_of_le (not_lt.mp h) with h2 | h2
    · exact Or.inl h2
    · exact Or.inr ⟨h2.symm, hnew y hy⟩

/-- C8: on a condition waiter queue in the cond_wait discipline,
cond_signal on an empty queue changes nothing, and on a non-empty queue it
removes exactly the front entry, which carries the greatest priority tag
and, among entries of that tag, the earliest arrival, and posts that entry
private semaphore by incrementing its count by one. -/
theorem c8_cond_signal_pops_highest (l : List CondWaiter) (hs : CondSorted l) :
    (l = [] → cond_signal l = ([], none)) ∧
    (l ≠ [] →
      ∃ w, w ∈ l ∧
        (cond_signal l).1 = l.tail ∧
        (cond_signal l).2 = some ⟨w.tag, w.arrival, w.semValue + 1⟩ ∧
        (∀ x ∈ l, x.tag ≤ w.tag) ∧
        (∀ x ∈ l, x.tag = w.tag → w.arrival ≤ x.arrival)) := by
  cases l with
  | nil => exact ⟨fun _ => rfl, fun h => absurd rfl h⟩
  | cons w rest =>
      have hs2 : List.Pairwise CondOrder (w :: rest) := hs
      have hw : ∀ x ∈ rest, CondOrder w x := (List.pairwise_cons.mp hs2).1
      refine ⟨fun h => absurd h (List.cons_ne_nil w rest), fun _ =>
        ⟨w, List.mem_cons_self w rest, rfl, rfl, ?_, ?_⟩⟩
      · intro x hx
        rcases List.mem_cons.mp hx with rfl | hx2
        · exact le_refl _
        · rcases hw x hx2 with h | ⟨h, _⟩
          · exact le_of_lt h
          · exact le_of_eq h.symm
      · intro x hx hxw
        rcases List.mem_cons.mp hx with rfl | hx2
        · exact le_refl _
        · rcases hw x hx2 with h | ⟨_, h2⟩
          · exact absurd hxw (ne_of_lt h)
          · exact le_of_lt h2

/-- Concrete condition queue for the C8 witness: tags 9, 9, 4 with
arrivals 0, 1, 2 and private counts 0. -/
def c8Queue : List CondWaiter :=
  [⟨9, 0, 0⟩, ⟨9, 1, 0⟩, ⟨4, 2, 0⟩]

/-- Witness for C8: on c8Queue the signalled entry is the earlier-arrived
tag-9 entry, with its private semaphore count raised to 1. -/
theorem c8_witness :
    CondSorted c8Queue ∧
    ((c8Queue = [] → cond_signal c8Queue = ([], none)) ∧
     (c8Queue ≠ [] →
       ∃ w, w ∈ c8Queue ∧
         (cond_signal c8Queue).1 = c8Queue.tail ∧
         (cond_signal c8Queue).2 = some ⟨w.tag, w.arrival, w.semValue + 1⟩ ∧
         (∀ x ∈ c8Queue, x.tag ≤ w.tag) ∧
         (∀ x ∈ c8Queue, x.tag = w.tag → w.arrival ≤ x.arrival))) :=
  ⟨by decide, c8_cond_signal_pops_highest c8Queue (by decide)⟩

end Cond

namespace Synch

/-- Lock states reachable through the operation boundaries of synch.c,
starting from lock_init. The block step is the sema_down enqueue taken
while the count is 0 (the new waiter may land at any position of the
priority-ordered queue); acquireFinish is the completed sema_down return
(count positive, decrement) followed by setting the holder, covering both
lock_acquire and a successful lock_try_acquire (a failed lock_try_acquire
leaves the state unchanged); release is lock_release: clears the holder and
performs sema_up (pop one waiter if any, increment the count). -/
inductive LockReach : LockSt → Prop where
  | start : LockReach ⟨none, 1, []⟩
  | block (l : LockSt) (t : Nat) (pre post : List Nat) :
      LockReach l → l.value = 0 → l.waiters = pre ++ post →
      LockReach ⟨l.holder, 0, pre ++ t :: post⟩
  | acquireFinish (l : LockSt) (t : Nat) :
      LockReach l → 0 < l.value →
      LockReach ⟨some t, l.value - 1, l.waiters⟩
  | release (l : LockSt) (t : Nat) :
      LockReach l → l.holder = some t →
      LockReach ⟨none, l.value + 1, l.waiters.tail⟩

/-- Inductive invariant of the lock: the count never exceeds 1, and the
holder is set exactly when the count is 0. -/
theorem lockReach_inv (l : LockSt) (h : LockReach l) :
    l.value ≤ 1 ∧ (l.holder.isSome ↔ l.value = 0) := by
  induction h with
  | start => simp
  | block l t pre post hr hv hw ih =>
      refine ⟨?_, by simp [ih.2.mpr hv]⟩
      show (0 : Nat) ≤ 1
      decide
  | acquireFinish l t hr hv ih =>
      have h1 : l.value = 1 := by omega
      refine ⟨?_, by simp [h1]⟩
      show l.value - 1 ≤ 1
      omega
  | release l t hr hh ih =>
      have h0 : l.value = 0 := ih.2.mp (by simp [hh])
      refine ⟨?_, by simp⟩
      show l.value + 1 ≤ 1
      omega

/-- C6: at every operation boundary of lock_init, lock_acquire,
lock_try_acquire and lock_release — that is, in every reachable lock
state — the holder field is set if and only if the semaphore count is 0. -/
theorem c6_holder_iff_count_zero (l : LockSt) (h : LockReach l) :
    l.holder.isSome ↔ l.value = 0 :=
  (lockReach_inv l h).2

/-- Witness for C6: the state after lock_init followed by a completed
lock_acquire by thread 3. -/
theorem c6_witness :
    LockReach ⟨some 3, 0, []⟩ ∧
    ((⟨some 3, 0, []⟩ : LockSt).holder.isSome ↔ (⟨some 3, 0, []⟩ : LockSt).value = 0) :=
  have h : LockReach ⟨some 3, 0, []⟩ :=
    LockReach.acquireFinish ⟨none, 1, []⟩ 3 LockReach.start (by decide)
  ⟨h, c6_holder_iff_count_zero ⟨some 3, 0, []⟩ h⟩

end Synch
